import Mathlib

/-!
Shallow embedding of the core of `binance-trade-bot-go`: profit evaluation,
opportunity selection, quantity formatting, the two-leg jump executors and
the retrying REST client, together with theorems checking the
natural-language specification against this embedding.

Conventions of the embedding:
* Go `float64` arithmetic is modelled exactly over `ℚ`.
* The price snapshot `map[string]string` is modelled as
  `String → Option (Option ℚ)`: the outer `Option` is key presence, the
  inner `Option` is the outcome of `strconv.ParseFloat` on the stored
  string (`none` = unparseable).  `ParseFloat` with an ignored error
  yields `0`, mirrored by `parseOrZero`.
* Fallible Go functions returning `(T, error)` become `Except String T`.
-/

namespace BinanceBot

/-- A price snapshot: symbol ↦ (present?, parsed value?). -/
def PriceMap : Type := String → Option (Option ℚ)

/-- `strconv.ParseFloat(prices[sym], 64)` with the error ignored: a missing
key gives the empty string, and any parse failure yields `0`. -/
def parseOrZero (prices : PriceMap) (sym : String) : ℚ :=
  match prices sym with
  | none => 0
  | some none => 0
  | some (some q) => q

/-- `models.Pair`: a trading pair with its persisted benchmark ratio. -/
structure Pair where
  fromCoinSymbol : String
  toCoinSymbol : String
  ratio : ℚ
deriving DecidableEq, Repr

/-- The trading section of `config.Config` consumed by the engine. -/
structure TradingCfg where
  bridge : String
  feeRate : ℚ
  scoutMargin : ℚ
  quantity : ℚ
  dryRun : Bool
deriving DecidableEq, Repr

/-- `calculateProfitForPair` (strategy_helpers.go): the core profit
calculation.  Returns `0` with no error for a jump to the bridge, an error
when a leg price is missing, unparseable or zero, and otherwise
`currentRatio * (1-fee)^2 / pair.Ratio - 1 - margin`. -/
def calculateProfitForPair (cfg : TradingCfg) (pair : Pair) (prices : PriceMap) :
    Except String ℚ :=
  if pair.toCoinSymbol = cfg.bridge then .ok 0
  else
    let fromSymbol := pair.fromCoinSymbol ++ cfg.bridge
    let toSymbol := pair.toCoinSymbol ++ cfg.bridge
    match prices fromSymbol, prices toSymbol with
    | some fromPrice?, some toPrice? =>
      match fromPrice?, toPrice? with
      | some fromPrice, some toPrice =>
        if fromPrice = 0 ∨ toPrice = 0 then
          .error "invalid prices for pair"
        else
          let feeRate := cfg.feeRate
          let margin := cfg.scoutMargin / 100
          let currentRatio := fromPrice / toPrice
          let effectiveRatio := currentRatio * (1 - feeRate) * (1 - feeRate)
          .ok (effectiveRatio / pair.ratio - 1 - margin)
      | _, _ => .error "failed to parse prices for pair"
    | _, _ => .error "prices not available for pair"

/-- `Engine.calculateProfitRatio` (engine.go): same formula, but a missing
leg price is skipped by returning `0` with no error, and a parse failure
falls through as a `0` price (error ignored in the Go source). -/
def calculateProfitRatio (cfg : TradingCfg) (pair : Pair) (prices : PriceMap) :
    Except String ℚ :=
  if pair.toCoinSymbol = cfg.bridge then .ok 0
  else
    let fromSymbol := pair.fromCoinSymbol ++ cfg.bridge
    let toSymbol := pair.toCoinSymbol ++ cfg.bridge
    match prices fromSymbol, prices toSymbol with
    | none, _ => .ok 0
    | some _, none => .ok 0
    | some fromPrice?, some toPrice? =>
      let fromPrice := fromPrice?.getD 0
      let toPrice := toPrice?.getD 0
      if fromPrice = 0 ∨ toPrice = 0 then
        .error "invalid prices for pair"
      else
        let feeRate := cfg.feeRate
        let margin := cfg.scoutMargin / 100
        let currentRatio := fromPrice / toPrice
        let effectiveRatio := currentRatio * (1 - feeRate) * (1 - feeRate)
        .ok (effectiveRatio / pair.ratio - 1 - margin)

/-- `tradeOpportunity`: a pair together with its computed profit. -/
structure TradeOpportunity where
  pair : Pair
  profit : ℚ
deriving DecidableEq, Repr

/-- The qualifying opportunities produced by the per-pair evaluation
goroutines of `findBestJump` (strategy_helpers.go): evaluation errors are
swallowed and only strictly positive profits are sent on the channel. -/
def collectOpportunities (cfg : TradingCfg) (pairs : List Pair) (prices : PriceMap) :
    List TradeOpportunity :=
  pairs.filterMap fun p =>
    match calculateProfitForPair cfg p prices with
    | .error _ => none
    | .ok profit => if 0 < profit then some ⟨p, profit⟩ else none

/-- The qualifying opportunities of `Engine.scout` (engine.go), which uses
`calculateProfitRatio` for the per-pair evaluation. -/
def engineCollect (cfg : TradingCfg) (pairs : List Pair) (prices : PriceMap) :
    List TradeOpportunity :=
  pairs.filterMap fun p =>
    match calculateProfitRatio cfg p prices with
    | .error _ => none
    | .ok profit => if 0 < profit then some ⟨p, profit⟩ else none

/-- The drain loop over the `opportunities` channel shared by `scout` and
`findBestJump`: keep the first opportunity seen, replace it whenever a
strictly larger profit arrives. -/
def selectBest (l : List TradeOpportunity) : Option TradeOpportunity :=
  l.foldl
    (fun best opp =>
      match best with
      | none => some opp
      | some b => if opp.profit > b.profit then some opp else some b)
    none

/-- `findBestJump` (strategy_helpers.go) for one channel arrival order. -/
def findBestJump (cfg : TradingCfg) (pairs : List Pair) (prices : PriceMap) :
    Option TradeOpportunity :=
  selectBest (collectOpportunities cfg pairs prices)

theorem selectBest_nil : selectBest [] = none := rfl

theorem selectBest_go_none (l : List TradeOpportunity) (b : TradeOpportunity) :
    l.foldl
      (fun best opp =>
        match best with
        | none => some opp
        | some b => if opp.profit > b.profit then some opp else some b)
      (some b) ≠ none := by
  induction l generalizing b with
  | nil => simp
  | cons o t ih =>
    simp only [List.foldl_cons]
    by_cases h : o.profit > b.profit <;> simp [h, ih]

theorem selectBest_eq_none_iff (l : List TradeOpportunity) :
    selectBest l = none ↔ l = [] := by
  constructor
  · intro h
    cases l with
    | nil => rfl
    | cons o t =>
      exact absurd h (by simpa [selectBest] using selectBest_go_none t o)
  · intro h; subst h; rfl

theorem selectBest_go_mem (l : List TradeOpportunity) (b r : TradeOpportunity)
    (h : l.foldl
      (fun best opp =>
        match best with
        | none => some opp
        | some b => if opp.profit > b.profit then some opp else some b)
      (some b) = some r) : r = b ∨ r ∈ l := by
  induction l generalizing b with
  | nil => simp at h; exact Or.inl h.symm
  | cons o t ih =>
    simp only [List.foldl_cons] at h
    by_cases ho : o.profit > b.profit
    · simp only [ho, if_pos] at h
      rcases ih o h with h' | h'
      · exact Or.inr (by simp [h'])
      · exact Or.inr (List.mem_cons_of_mem _ h')
    · simp only [ho, if_neg, not_false_iff] at h
      rcases ih b h with h' | h'
      · exact Or.inl h'
      · exact Or.inr (List.mem_cons_of_mem _ h')

theorem selectBest_go_le (l : List TradeOpportunity) (b r : TradeOpportunity)
    (h : l.foldl
      (fun best opp =>
        match best with
        | none => some opp
        | some b => if opp.profit > b.profit then some opp else some b)
      (some b) = some r) : b.profit ≤ r.profit ∧ ∀ o ∈ l, o.profit ≤ r.profit := by
  induction l generalizing b with
  | nil => simp at h; subst h; exact ⟨le_refl _, by simp⟩
  | cons o t ih =>
    simp only [List.foldl_cons] at h
    by_cases ho : o.profit > b.profit
    · simp only [ho, if_pos] at h
      obtain ⟨h1, h2⟩ := ih o h
      refine ⟨le_trans (le_of_lt ho) h1, ?_⟩
      intro x hx
      rcases List.mem_cons.mp hx with hx | hx
      · subst hx; exact h1
      · exact h2 x hx
    · simp only [ho, if_neg, not_false_iff] at h
      obtain ⟨h1, h2⟩ := ih b h
      refine ⟨h1, ?_⟩
      intro x hx
      rcases List.mem_cons.mp hx with hx | hx
      · subst hx; exact le_trans (le_of_not_lt ho) h1
      · exact h2 x hx

/-- The selected opportunity is one of the collected ones and its profit is
maximal among them. -/
theorem selectBest_spec (l : List TradeOpportunity) (r : TradeOpportunity)
    (h : selectBest l = some r) : r ∈ l ∧ ∀ o ∈ l, o.profit ≤ r.profit := by
  cases l with
  | nil => simp [selectBest] at h
  | cons o t =>
    have h' : t.foldl
        (fun best opp =>
          match best with
          | none => some opp
          | some b => if opp.profit > b.profit then some opp else some b)
        (some o) = some r := by simpa [selectBest] using h
    obtain ⟨h1, h2⟩ := selectBest_go_le t o r h'
    rcases selectBest_go_mem t o r h' with hm | hm
    · subst hm
      exact ⟨List.mem_cons_self _ _, by
        intro x hx
        rcases List.mem_cons.mp hx with hx | hx
        · subst hx; exact le_refl _
        · exact h2 x hx⟩
    · refine ⟨List.mem_cons_of_mem _ hm, ?_⟩
      intro x hx
      rcases List.mem_cons.mp hx with hx | hx
      · subst hx; exact h1
      · exact h2 x hx

/-- Numeric value of a list of decimal digit characters, `none` when the
list is empty or contains a non-digit. -/
def digitsToNat : List Char → Option Nat
  | [] => none
  | [c] => if c.isDigit then some (c.toNat - '0'.toNat) else none
  | c :: rest =>
    if c.isDigit then
      match digitsToNat rest with
      | none => none
      | some n => some ((c.toNat - '0'.toNat) * 10 ^ rest.length + n)
    else none

/-- `strconv.ParseFloat` restricted to the plain unsigned decimal numerals
the exchange sends (`"123"`, `"0.00100000"`): exact rational value, `none`
on anything else (in particular the empty string). -/
def parseDecimal (s : List Char) : Option ℚ :=
  match s.splitOn '.' with
  | [intPart] =>
    match digitsToNat intPart with
    | none => none
    | some n => some (n : ℚ)
  | [intPart, fracPart] =>
    match digitsToNat intPart, digitsToNat fracPart with
    | some n, some f => some ((n : ℚ) + (f : ℚ) / (10 : ℚ) ^ fracPart.length)
    | _, _ => none
  | _ => none

/-- Index of the first `'.'` in the character list, scanning from `start`
(the Go `for i, r := range stepSize` loop with `break`). -/
def findDotIdx : List Char → Nat → Option Nat
  | [], _ => none
  | c :: rest, i => if c = '.' then some i else findDotIdx rest (i + 1)

/-- The Go downward scan for the last non-`'0'` character after the dot:
returns `i - dotIndex` for the largest index `i > dotIndex` whose character
is not `'0'`, and `0` when every such character is `'0'` (the `trimmed`
string stays empty). -/
def scanDown (s : List Char) (dotIndex : Nat) : Nat → Nat
  | 0 => 0
  | i + 1 =>
    if i + 1 ≤ dotIndex then 0
    else if s.getD (i + 1) '0' ≠ '0' then i + 1 - dotIndex
    else scanDown s dotIndex i

/-- `precision` as computed by `formatQuantity` from the `stepSize` string:
number of decimal places after trimming trailing zeros, `0` when there is
no dot or only zeros follow it. -/
def precisionOf (s : List Char) : Nat :=
  match findDotIdx s 0 with
  | none => 0
  | some dotIndex => scanDown s dotIndex (s.length - 1)

/-- `binance.Filter`: one entry of a symbol's filter list. -/
structure Filter where
  filterType : String
  minQty : String
  stepSize : String
deriving DecidableEq, Repr

/-- `binance.SymbolInfo`: the cached exchange rule for one symbol. -/
structure SymbolInfo where
  symbol : String
  filters : List Filter
deriving DecidableEq, Repr

/-- The exchange-rule cache `map[string]binance.SymbolInfo`. -/
def ExchangeRules : Type := String → Option SymbolInfo

/-- The Go loop over `rule.Filters` with `break` on the first `LOT_SIZE`
filter: yields its `(stepSize, minQty)` strings, `("", "")` when absent. -/
def findLotSize (filters : List Filter) : String × String :=
  match filters.find? (fun f => f.filterType = "LOT_SIZE") with
  | none => ("", "")
  | some f => (f.stepSize, f.minQty)

/-- `formatQuantity` (identical in engine.go and strategy_helpers.go):
floor the quantity to the decimal precision derived from the `LOT_SIZE`
step size, erroring when the input or the floored result is below the
parsed minimum quantity; with no cached rule or no usable `LOT_SIZE`
filter the quantity is returned unchanged. -/
def formatQuantity (rules : ExchangeRules) (symbol : String) (quantity : ℚ) :
    Except String ℚ :=
  match rules symbol with
  | none => .ok quantity
  | some rule =>
    let lotSize := findLotSize rule.filters
    let stepSize := lotSize.1
    let minQtyStr := lotSize.2
    if stepSize = "" then .ok quantity
    else
      let minQty := (parseDecimal minQtyStr.data).getD 0
      if quantity < minQty then .error "quantity is less than minQty"
      else
        let precision := precisionOf stepSize.data
        let multiplier : ℚ := 10 ^ precision
        let floored := (⌊quantity * multiplier⌋ : ℚ) / multiplier
        if floored < minQty then .error "formatted quantity is less than minQty"
        else .ok floored

/-- `models.Trade`: one persisted leg of a jump. -/
structure Trade where
  symbol : String
  side : String
  price : ℚ
  quantity : ℚ
  quoteQuantity : ℚ
  timestamp : Int
  profit : ℚ
deriving DecidableEq, Repr

/-- The persisted state the executors touch: the `CurrentCoin` singleton,
the `Pair` table and the append-only `Trade` table. -/
structure BotState where
  currentCoin : String
  pairs : List Pair
  trades : List Trade
deriving DecidableEq, Repr

/-- `binance.CreateOrderResponse`, restricted to the fields the executors
read. -/
structure OrderResp where
  orderId : Int
  transactTime : Int
  cummulativeQuoteQty : ℚ
deriving DecidableEq, Repr

/-- The exchange as seen during one jump: the price snapshot returned by
`GetAllTickerPrices` and the outcome of each `CreateOrder` call (`none` =
the call returned an error). -/
structure ExchangeEnv where
  prices : PriceMap
  sellOrder : Option OrderResp
  buyOrder : Option OrderResp

/-- The abort points of a jump. -/
inductive JumpError
  | sellSizing
  | sellOrderFailed
  | noToPrice
  | buySizing
  | buyOrderFailed
deriving DecidableEq, Repr

/-- A network order request issued to the exchange. -/
structure Order where
  symbol : String
  side : String
  qty : ℚ
deriving DecidableEq, Repr

/-- Outcome of a jump execution: the resulting persisted state, the abort
point if any, and every order request that was sent to the exchange. -/
structure JumpResult where
  state : BotState
  error : Option JumpError
  ordersIssued : List Order
deriving Repr

/-- `Engine.updateRatiosForNewCoin` (engine.go): every pair whose
`FromCoin` is the newly acquired coin is re-benchmarked to
`fromPrice/toPrice` from the snapshot; pairs with a missing or
non-positive leg price keep their old ratio. -/
def updateRatiosForNewCoin (bridge : String) (newCoin : String) (prices : PriceMap)
    (pairs : List Pair) : List Pair :=
  pairs.map fun pair =>
    if pair.fromCoinSymbol = newCoin then
      match prices (pair.fromCoinSymbol ++ bridge), prices (pair.toCoinSymbol ++ bridge) with
      | some fromPrice?, some toPrice? =>
        let fromPrice := fromPrice?.getD 0
        let toPrice := toPrice?.getD 0
        if 0 < fromPrice ∧ 0 < toPrice then
          { pair with ratio := fromPrice / toPrice }
        else pair
      | _, _ => pair
    else pair

/-- `Engine.executeJumpTransaction` (engine.go): sell `cfg.quantity` of
`FromCoin` for the bridge (real or simulated), buy `ToCoin` with the
proceeds, and only after both legs succeed update `CurrentCoin` and
re-benchmark the new coin's pairs.  No `Trade` rows are written on this
path. -/
def executeJumpTransaction (cfg : TradingCfg) (rules : ExchangeRules)
    (env : ExchangeEnv) (st : BotState) (pair : Pair) : JumpResult :=
  let bridge := cfg.bridge
  let sellSymbol := pair.fromCoinSymbol ++ bridge
  match formatQuantity rules sellSymbol cfg.quantity with
  | .error _ => ⟨st, some .sellSizing, []⟩
  | .ok sellQty =>
    let afterSell : Option (ℚ × List Order) :=
      if cfg.dryRun then
        some (sellQty * parseOrZero env.prices sellSymbol * (1 - cfg.feeRate), [])
      else
        match env.sellOrder with
        | none => none
        | some o => some (o.cummulativeQuoteQty, [⟨sellSymbol, "SELL", sellQty⟩])
    match afterSell with
    | none => ⟨st, some .sellOrderFailed, [⟨sellSymbol, "SELL", sellQty⟩]⟩
    | some (bridgeQtyObtained, orders1) =>
      let buySymbol := pair.toCoinSymbol ++ bridge
      let toPrice := parseOrZero env.prices buySymbol
      if toPrice = 0 then ⟨st, some .noToPrice, orders1⟩
      else
        let buyQuantity := bridgeQtyObtained / toPrice
        match formatQuantity rules buySymbol buyQuantity with
        | .error _ => ⟨st, some .buySizing, orders1⟩
        | .ok buyQty =>
          let buyAttempt : Bool × List Order :=
            if cfg.dryRun then (true, orders1)
            else
              match env.buyOrder with
              | none => (false, orders1 ++ [⟨buySymbol, "BUY", buyQty⟩])
              | some _ => (true, orders1 ++ [⟨buySymbol, "BUY", buyQty⟩])
          if buyAttempt.1 then
            ⟨{ st with
                currentCoin := pair.toCoinSymbol,
                pairs := updateRatiosForNewCoin bridge pair.toCoinSymbol env.prices st.pairs },
              none, buyAttempt.2⟩
          else ⟨st, some .buyOrderFailed, buyAttempt.2⟩

/-- `ExecuteJump` (strategy_helpers.go, the variant taking the computed
profit): places both orders through the client, persists one `Trade` per
leg — the sell leg with no profit attributed, the buy leg carrying
`profit` — and leaves `CurrentCoin` and the pair ratios to the caller. -/
def ExecuteJump (cfg : TradingCfg) (rules : ExchangeRules) (env : ExchangeEnv)
    (st : BotState) (pair : Pair) (fromCoinQuantity : ℚ) (profit : ℚ) : JumpResult :=
  let bridge := cfg.bridge
  let sellSymbol := pair.fromCoinSymbol ++ bridge
  match formatQuantity rules sellSymbol fromCoinQuantity with
  | .error _ => ⟨st, some .sellSizing, []⟩
  | .ok sellQty =>
    match env.sellOrder with
    | none => ⟨st, some .sellOrderFailed, [⟨sellSymbol, "SELL", sellQty⟩]⟩
    | some sellOrder =>
      let price := parseOrZero env.prices sellSymbol
      let bridgeQtyObtained := sellQty * price * (1 - cfg.feeRate)
      let sellTrade : Trade :=
        ⟨sellSymbol, "SELL", price, sellQty, sellQty * price, sellOrder.transactTime, 0⟩
      let st1 : BotState := { st with trades := st.trades ++ [sellTrade] }
      let orders1 : List Order := [⟨sellSymbol, "SELL", sellQty⟩]
      let buySymbol := pair.toCoinSymbol ++ bridge
      let toPrice := parseOrZero env.prices buySymbol
      if toPrice = 0 then ⟨st1, some .noToPrice, orders1⟩
      else
        let buyQuantity := bridgeQtyObtained / toPrice
        match formatQuantity rules buySymbol buyQuantity with
        | .error _ => ⟨st1, some .buySizing, orders1⟩
        | .ok buyQty =>
          match env.buyOrder with
          | none => ⟨st1, some .buyOrderFailed, orders1 ++ [⟨buySymbol, "BUY", buyQty⟩]⟩
          | some buyOrder =>
            let buyTrade : Trade :=
              ⟨buySymbol, "BUY", toPrice, buyQty, buyQty * toPrice, buyOrder.transactTime, profit⟩
            ⟨{ st1 with trades := st1.trades ++ [buyTrade] },
              none, orders1 ++ [⟨buySymbol, "BUY", buyQty⟩]⟩

/-- One tick of `Engine.scout` after the snapshot has been fetched:
evaluate the pairs leaving the current coin, pick the best positive
opportunity, and execute the jump when one exists.  The `Bool` records
whether a jump was executed; with no opportunity the tick performs no
action and ends without error. -/
def scoutTick (cfg : TradingCfg) (rules : ExchangeRules) (env : ExchangeEnv)
    (st : BotState) (prices : PriceMap) : BotState × Option JumpError × Bool :=
  let pairs := st.pairs.filter fun p => p.fromCoinSymbol = st.currentCoin
  match selectBest (engineCollect cfg pairs prices) with
  | none => (st, none, false)
  | some best =>
    let r := executeJumpTransaction cfg rules env st best.pair
    (r.state, r.error, true)

/-- Outcome of one transport attempt inside `RestClient.doRequest`
(rest_client.go): either a network-level error with no response, or a
response carrying its HTTP status and the parsed `Retry-After` header
(`none` = absent or unparseable). -/
inductive AttemptOutcome
  | netErr
  | resp (status : Nat) (retryAfter : Option Nat)
deriving DecidableEq, Repr

/-- The error classes `doRequest` can surface. -/
inductive ReqError
  | clientError (status : Nat)
  | exhaustedRetries
deriving DecidableEq, Repr

/-- Status of an outcome, `0` for a network error (no response). -/
def statusOf : AttemptOutcome → Nat
  | .netErr => 0
  | .resp s _ => s

/-- The success test `err == nil && !resp.IsError()`: resty's `IsError` is
`StatusCode() > 399`, so any status up to 399 is returned to the caller. -/
def isSuccess : AttemptOutcome → Bool
  | .netErr => false
  | .resp s _ => s ≤ 399

/-- The retry decision of `doRequest`: network error, HTTP 429, the IP-ban
code 418, or any 5xx server error. -/
def shouldRetry : AttemptOutcome → Bool
  | .netErr => true
  | .resp s _ => (s == 429 || s == 418) || 500 ≤ s

/-- The wait before the next attempt, for the `i`-th (0-based) attempt: a
positive parsed `Retry-After` on a 429/418 response is honored exactly;
everything else — including `Retry-After: 0` — falls back to the
exponential backoff `2^i` seconds. -/
def waitFor (o : AttemptOutcome) (i : Nat) : Nat :=
  match o with
  | .resp s (some n) => if ((s == 429 || s == 418) && n ≠ 0) then n else 2 ^ i
  | _ => 2 ^ i

/-- Trace of one `doRequest` call: its result, the backoff waits performed
(in seconds), and how many transport attempts were executed. -/
structure ReqTrace where
  result : Except ReqError Nat
  waits : List Nat
  attempts : Nat
deriving Repr

/-- The retry loop of `doRequest`, attempt index `i`, remaining iterations
`fuel` (`maxRetries - i`).  When the loop exhausts its iterations the
final error `request failed after 3 attempts` is returned — note that the
wait after the last failed attempt still happens before the loop
terminates. -/
def doRequestLoop (outcome : Nat → AttemptOutcome) : Nat → Nat → ReqTrace
  | _, 0 => ⟨.error .exhaustedRetries, [], 0⟩
  | i, fuel + 1 =>
    let o := outcome i
    if isSuccess o then ⟨.ok (statusOf o), [], 1⟩
    else if shouldRetry o then
      let t := doRequestLoop outcome (i + 1) fuel
      ⟨t.result, waitFor o i :: t.waits, t.attempts + 1⟩
    else ⟨.error (.clientError (statusOf o)), [], 1⟩

/-- `RestClient.doRequest` with `maxRetries = 3`, over a given sequence of
transport outcomes. -/
def doRequest (outcome : Nat → AttemptOutcome) : ReqTrace :=
  doRequestLoop outcome 0 3

/-- The backoff rule as the specification words it: a rate-limit response
carrying a positive `Retry-After` value is honored exactly; otherwise
exponential backoff doubling per attempt, seeded at 1 second.
Modelled from the spec to compare with `waitFor` derived from the code. -/
def specBackoff (o : AttemptOutcome) (i : Nat) : Nat :=
  match o with
  | .resp s (some n) =>
    if (s = 429 ∨ s = 418) ∧ 0 < n then n else 2 ^ i
  | _ => 2 ^ i

theorem waitFor_eq_specBackoff (o : AttemptOutcome) (i : Nat) :
    waitFor o i = specBackoff o i := by
  cases o with
  | netErr => rfl
  | resp s ra =>
    cases ra with
    | none => rfl
    | some n =>
      simp only [waitFor, specBackoff]
      by_cases h429 : s = 429
      · subst h429
        by_cases hn : n = 0 <;> simp [hn, Nat.pos_of_ne_zero]
      · by_cases h418 : s = 418
        · subst h418
          by_cases hn : n = 0 <;> simp [hn, h429, Nat.pos_of_ne_zero]
        · have : ¬(s = 429 ∨ s = 418) := by tauto
          simp [h429, h418, this, beq_iff_eq]

/-- C1: for every pair whose target is distinct from the bridge currency
and whose two leg prices are present and non-zero in the snapshot, both
profit evaluators return exactly
`(fromPrice/toPrice) * (1 - feeRate)^2 / pair.Ratio - 1 - scoutMargin/100`
— a pure function of the prices, the benchmark ratio, the fee rate and the
margin. -/
theorem profit_evaluation_formula (cfg : TradingCfg) (pair : Pair) (prices : PriceMap)
    (fromPrice toPrice : ℚ)
    (hTo : pair.toCoinSymbol ≠ cfg.bridge)
    (hFrom : prices (pair.fromCoinSymbol ++ cfg.bridge) = some (some fromPrice))
    (hToP : prices (pair.toCoinSymbol ++ cfg.bridge) = some (some toPrice))
    (hfp : fromPrice ≠ 0) (htp : toPrice ≠ 0) :
    calculateProfitForPair cfg pair prices =
      .ok (fromPrice / toPrice * (1 - cfg.feeRate) ^ 2 / pair.ratio - 1 -
        cfg.scoutMargin / 100) ∧
    calculateProfitRatio cfg pair prices =
      .ok (fromPrice / toPrice * (1 - cfg.feeRate) ^ 2 / pair.ratio - 1 -
        cfg.scoutMargin / 100) := by
  constructor
  · simp only [calculateProfitForPair, if_neg hTo, hFrom, hToP]
    simp only [hfp, htp, or_self, if_neg, not_false_iff, false_or, if_false]
    norm_num [Except.ok.injEq]
    ring
  · simp only [calculateProfitRatio, if_neg hTo, hFrom, hToP]
    simp only [Option.getD_some]
    simp only [hfp, htp, or_self, if_neg, not_false_iff, false_or, if_false]
    norm_num [Except.ok.injEq]
    ring

/-- Witness for C1 at the spec's end-to-end scenario: ratio 15, fee 0.001,
margin 0.05%, prices 30000 and 1800. -/
theorem profit_evaluation_formula_witness :
    calculateProfitForPair ⟨"USDT", 1/1000, 1/20, 1, false⟩ ⟨"BTC", "ETH", 15⟩
      (fun s => if s = "BTCUSDT" then some (some 30000)
        else if s = "ETHUSDT" then some (some 1800) else none) =
      .ok ((30000 : ℚ) / 1800 * (1 - 1/1000) ^ 2 / 15 - 1 - (1/20) / 100) ∧
    calculateProfitRatio ⟨"USDT", 1/1000, 1/20, 1, false⟩ ⟨"BTC", "ETH", 15⟩
      (fun s => if s = "BTCUSDT" then some (some 30000)
        else if s = "ETHUSDT" then some (some 1800) else none) =
      .ok ((30000 : ℚ) / 1800 * (1 - 1/1000) ^ 2 / 15 - 1 - (1/20) / 100) :=
  profit_evaluation_formula ⟨"USDT", 1/1000, 1/20, 1, false⟩ ⟨"BTC", "ETH", 15⟩ _
    30000 1800 (by decide) (by decide) (by decide) (by norm_num) (by norm_num)

/-- C9: for every pair whose target coin is the configured bridge
currency, both profit evaluators return exactly `0` with no error, for any
price snapshot. -/
theorem bridge_pair_profit_zero (cfg : TradingCfg) (pair : Pair) (prices : PriceMap)
    (h : pair.toCoinSymbol = cfg.bridge) :
    calculateProfitForPair cfg pair prices = .ok 0 ∧
    calculateProfitRatio cfg pair prices = .ok 0 := by
  constructor
  · simp [calculateProfitForPair, h]
  · simp [calculateProfitRatio, h]

/-- Witness for C9: a BTC→USDT pair under bridge USDT, with an arbitrary
snapshot. -/
theorem bridge_pair_profit_zero_witness :
    calculateProfitForPair ⟨"USDT", 1/1000, 1/20, 1, false⟩ ⟨"BTC", "USDT", 15⟩
      (fun _ => some (some 42)) = .ok 0 ∧
    calculateProfitRatio ⟨"USDT", 1/1000, 1/20, 1, false⟩ ⟨"BTC", "USDT", 15⟩
      (fun _ => some (some 42)) = .ok 0 :=
  bridge_pair_profit_zero ⟨"USDT", 1/1000, 1/20, 1, false⟩ ⟨"BTC", "USDT", 15⟩ _
    (by decide)

/-- C10: with no cached exchange rule for the symbol, or a cached rule
whose filter list has no `LOT_SIZE` entry, `formatQuantity` returns the
input quantity unchanged with no error: neither the minimum-quantity check
nor the step-size rounding is applied. -/
theorem formatQuantity_default_passthrough (rules : ExchangeRules) (sym : String)
    (q : ℚ) :
    (rules sym = none → formatQuantity rules sym q = .ok q) ∧
    (∀ info, rules sym = some info →
      info.filters.find? (fun f => f.filterType = "LOT_SIZE") = none →
      formatQuantity rules sym q = .ok q) := by
  constructor
  · intro h
    simp [formatQuantity, h]
  · intro info hinfo hfind
    simp [formatQuantity, hinfo, findLotSize, hfind]

/-- Witness for C10: a symbol with no cache entry, and a symbol whose rule
carries only a `PRICE_FILTER`. -/
theorem formatQuantity_default_passthrough_witness :
    formatQuantity (fun _ => none) "ABCUSDT" (7/3) = .ok (7/3) ∧
    formatQuantity
      (fun _ => some ⟨"ABCUSDT", [⟨"PRICE_FILTER", "0.01", "0.01"⟩]⟩)
      "ABCUSDT" (7/3) = .ok (7/3) :=
  ⟨(formatQuantity_default_passthrough (fun _ => none) "ABCUSDT" (7/3)).1 rfl,
    (formatQuantity_default_passthrough
      (fun _ => some ⟨"ABCUSDT", [⟨"PRICE_FILTER", "0.01", "0.01"⟩]⟩) "ABCUSDT" (7/3)).2
      ⟨"ABCUSDT", [⟨"PRICE_FILTER", "0.01", "0.01"⟩]⟩ rfl (by decide)⟩

theorem shouldRetry_not_success (o : AttemptOutcome) (h : shouldRetry o = true) :
    isSuccess o = false := by
  cases o with
  | netErr => rfl
  | resp s ra =>
    simp only [shouldRetry, Bool.or_eq_true, beq_iff_eq, decide_eq_true_eq] at h
    simp only [isSuccess, decide_eq_false_iff_not]
    omega

theorem doRequestLoop_succ (f : Nat → AttemptOutcome) (i fuel : Nat) :
    doRequestLoop f i (fuel + 1) =
      if isSuccess (f i) then ⟨.ok (statusOf (f i)), [], 1⟩
      else if shouldRetry (f i) then
        ⟨(doRequestLoop f (i + 1) fuel).result,
          waitFor (f i) i :: (doRequestLoop f (i + 1) fuel).waits,
          (doRequestLoop f (i + 1) fuel).attempts + 1⟩
      else ⟨.error (.clientError (statusOf (f i))), [], 1⟩ := rfl

theorem doRequestLoop_attempts_pos (f : Nat → AttemptOutcome) (i fuel : Nat)
    (h : 0 < fuel) : 0 < (doRequestLoop f i fuel).attempts := by
  cases fuel with
  | zero => omega
  | succ n =>
    rw [doRequestLoop_succ]
    by_cases hs : isSuccess (f i) <;> by_cases hr : shouldRetry (f i) <;>
      simp [hs, hr]

/-- C5 counterexample: a 304 response is neither a 2xx success nor in the
retry set `{network error, 429, 418, 5xx}`, so the claim says it must be a
terminal `ClientError`; the client instead returns it to the caller as a
success on the first attempt, because the success test is resty's
`IsError` (`status > 399`). -/
theorem retry_policy_counterexample :
    (doRequest fun _ => .resp 304 none).result = .ok 304 ∧
    (doRequest fun _ => .resp 304 none).result ≠ .error (.clientError 304) ∧
    (doRequest fun _ => .resp 304 none).attempts = 1 ∧
    (doRequest fun _ => .resp 304 none).waits = [] ∧
    ¬(200 ≤ 304 ∧ 304 ≤ 299) := by
  refine ⟨rfl, ?_, rfl, rfl, by omega⟩
  intro h
  have h' : (Except.ok 304 : Except ReqError Nat) = .error (.clientError 304) := h
  exact Except.noConfusion h'

/-- C5 amended: a request is retried if and only if the transport returned
a network-level error or the status is 429, 418 or 5xx; a response with
status in 400–499 other than 429/418 is a terminal `ClientError` returned
without any retry; and any status at or below 399 — the 2xx successes but
also 3xx responses — is returned to the caller as a success, not as a
`ClientError`. -/
theorem retry_policy_amended (f : Nat → AttemptOutcome) :
    (1 < (doRequest f).attempts ↔ shouldRetry (f 0) = true) ∧
    (∀ s ra, f 0 = .resp s ra → 400 ≤ s → s ≠ 429 → s ≠ 418 → s < 500 →
      (doRequest f).result = .error (.clientError s) ∧ (doRequest f).attempts = 1) ∧
    (∀ s ra, f 0 = .resp s ra → s ≤ 399 →
      (doRequest f).result = .ok s ∧ (doRequest f).attempts = 1) := by
  refine ⟨?_, ?_, ?_⟩
  · constructor
    · intro h
      by_contra hr
      have hr' : shouldRetry (f 0) = false := by
        cases hsr : shouldRetry (f 0) with
        | false => rfl
        | true => exact absurd hsr hr
      by_cases hs : isSuccess (f 0)
      · simp [doRequest, doRequestLoop, hs] at h
      · simp [doRequest, doRequestLoop, hs, hr'] at h
    · intro h
      have hs := shouldRetry_not_success _ h
      have hpos := doRequestLoop_attempts_pos f 1 2 (by omega)
      have hattempts : (doRequest f).attempts = (doRequestLoop f 1 2).attempts + 1 := by
        show (doRequestLoop f 0 3).attempts = _
        rw [show (3 : Nat) = 2 + 1 from rfl, doRequestLoop_succ]
        simp [hs, h]
      omega
  · intro s ra h0 h400 h429 h418 h500
    have hs : isSuccess (AttemptOutcome.resp s ra) = false := by
      simp only [isSuccess, decide_eq_false_iff_not]; omega
    have hr : shouldRetry (AttemptOutcome.resp s ra) = false := by
      simp only [shouldRetry, Bool.or_eq_false_iff, beq_eq_false_iff_ne, ne_eq,
        decide_eq_false_iff_not]
      omega
    have hexp : doRequest f = ⟨.error (.clientError s), [], 1⟩ := by
      show doRequestLoop f 0 3 = _
      rw [show (3 : Nat) = 2 + 1 from rfl, doRequestLoop_succ, h0]
      simp [hs, hr, statusOf]
    rw [hexp]
    exact ⟨rfl, rfl⟩
  · intro s ra h0 h399
    have hs : isSuccess (AttemptOutcome.resp s ra) = true := by
      simp only [isSuccess, decide_eq_true_eq]; omega
    have hexp : doRequest f = ⟨.ok s, [], 1⟩ := by
      show doRequestLoop f 0 3 = _
      rw [show (3 : Nat) = 2 + 1 from rfl, doRequestLoop_succ, h0]
      simp [hs, statusOf]
    rw [hexp]
    exact ⟨rfl, rfl⟩

/-- Witness for C5 amended, at a terminal 404 first attempt. -/
theorem retry_policy_amended_witness :
    (¬ 1 < (doRequest fun _ => .resp 404 none).attempts) ∧
    (doRequest fun _ => .resp 404 none).result = .error (.clientError 404) ∧
    (doRequest fun _ => .resp 404 none).attempts = 1 :=
  ⟨fun h =>
      absurd ((retry_policy_amended fun _ => .resp 404 none).1.mp h) (by decide),
    (retry_policy_amended fun _ => .resp 404 none).2.1 404 none rfl (by omega)
      (by omega) (by omega) (by omega)⟩

/-- C6 counterexample: with every attempt answering 500 and no
`Retry-After`, the client makes exactly 3 transport attempts — not 4 — and
returns the exhausted-retries error after the 3rd failure; the waits are
1, 2 and 4 seconds, the final 4-second wait being followed by no further
attempt.  Moreover a 429 response carrying `Retry-After: 0` is *not*
honored exactly: the waits fall back to exponential backoff instead of 0.
-/
theorem retry_backoff_counterexample :
    (doRequest fun _ => .resp 500 none).result = .error .exhaustedRetries ∧
    (doRequest fun _ => .resp 500 none).waits = [1, 2, 4] ∧
    (doRequest fun _ => .resp 500 none).attempts = 3 ∧
    (doRequest fun _ => .resp 500 none).attempts ≠ 4 ∧
    (doRequest fun _ => .resp 429 (some 0)).waits = [1, 2, 4] := by
  exact ⟨rfl, rfl, rfl, by decide, rfl⟩

/-- C6 amended: when the first three transport attempts all fail with
retryable outcomes, the client performs exactly 3 attempts (there is no
4th) and then surfaces the exhausted-retries error; the three waits follow
the backoff rule: a rate-limit response (429/418) carrying a positive
`Retry-After` value is honored exactly — the same value before each retry,
not exponential backoff — and every other retryable outcome (including a
`Retry-After` of 0) waits `2^i` seconds after the `i`-th (0-based)
attempt, i.e. 1, 2 and then a final 4-second sleep after the 3rd failure.
-/
theorem retry_backoff_amended (f : Nat → AttemptOutcome)
    (h0 : shouldRetry (f 0) = true) (h1 : shouldRetry (f 1) = true)
    (h2 : shouldRetry (f 2) = true) :
    (doRequest f).result = .error .exhaustedRetries ∧
    (doRequest f).attempts = 3 ∧
    (doRequest f).waits = [specBackoff (f 0) 0, specBackoff (f 1) 1, specBackoff (f 2) 2] := by
  have hs0 := shouldRetry_not_success _ h0
  have hs1 := shouldRetry_not_success _ h1
  have hs2 := shouldRetry_not_success _ h2
  refine ⟨?_, ?_, ?_⟩ <;>
    simp [doRequest, doRequestLoop, hs0, hs1, hs2, h0, h1, h2,
      waitFor_eq_specBackoff]

/-- Witness for C6 amended, at the spec's own scenario: three 429
responses carrying `Retry-After: 2` make the client wait exactly 2 seconds
around each failed attempt. -/
theorem retry_backoff_amended_witness :
    (doRequest fun _ => .resp 429 (some 2)).result = .error .exhaustedRetries ∧
    (doRequest fun _ => .resp 429 (some 2)).attempts = 3 ∧
    (doRequest fun _ => .resp 429 (some 2)).waits = [2, 2, 2] :=
  retry_backoff_amended (fun _ => .resp 429 (some 2)) (by decide) (by decide)
    (by decide)

/-- A rule cache whose only symbol carries a `LOT_SIZE` filter with the
non-power-of-ten step size `0.25`. -/
def stepQuarterRules : ExchangeRules := fun s =>
  if s = "FOOUSDT" then some ⟨"FOOUSDT", [⟨"LOT_SIZE", "0.00", "0.25"⟩]⟩ else none

/-- Evaluation helper: the explicit success path of `formatQuantity` under
a usable `LOT_SIZE` rule, with the numeric side conditions supplied as
hypotheses. -/
theorem formatQuantity_compute (rules : ExchangeRules) (sym : String)
    (info : SymbolInfo) (hrule : rules sym = some info)
    (hstep : (findLotSize info.filters).1 ≠ "")
    (minq : ℚ) (hminq : (parseDecimal (findLotSize info.filters).2.data).getD 0 = minq)
    (q fl : ℚ) (h1 : ¬ q < minq)
    (hfl : (⌊q * 10 ^ precisionOf (findLotSize info.filters).1.data⌋ : ℚ) /
      10 ^ precisionOf (findLotSize info.filters).1.data = fl)
    (h2 : ¬ fl < minq) :
    formatQuantity rules sym q = .ok fl := by
  simp only [formatQuantity, hrule, if_neg hstep, hminq, hfl, if_neg h1, if_neg h2]

/-- C7 counterexample: under a `LOT_SIZE` rule with step size `0.25`,
formatting the quantity `0.30` (at or above the minimum `0`) succeeds and
returns `0.30` unchanged, because the code floors to the decimal precision
derived from the step-size string (2 places) rather than to the step
itself; genuine floor-to-step would return `0.25`, and `0.30` is not a
multiple of `0.25` (otherwise `⌊0.30/0.25⌋·0.25` would equal `0.30`). -/
theorem formatQuantity_step_counterexample :
    formatQuantity stepQuarterRules "FOOUSDT" (3/10) = .ok (3/10) ∧
    parseDecimal "0.25".data = some (1/4) ∧
    (⌊((3 : ℚ)/10) / (1/4)⌋ : ℚ) * (1/4) = 1/4 ∧
    ((1 : ℚ)/4) ≠ 3/10 := by
  have e25 : parseDecimal "0.25".data =
      some (((0 : Nat) : ℚ) + ((25 : Nat) : ℚ) / 10 ^ 2) := rfl
  have e00 : parseDecimal "0.00".data =
      some (((0 : Nat) : ℚ) + ((0 : Nat) : ℚ) / 10 ^ 2) := rfl
  refine ⟨?_, ?_, ?_, by norm_num⟩
  · refine formatQuantity_compute stepQuarterRules "FOOUSDT"
      ⟨"FOOUSDT", [⟨"LOT_SIZE", "0.00", "0.25"⟩]⟩ rfl (by decide)
      0 ?_ (3/10) (3/10) (by norm_num) ?_ (by norm_num)
    · rw [show findLotSize [⟨"LOT_SIZE", "0.00", "0.25"⟩] = ("0.25", "0.00") from rfl]
      rw [e00]
      norm_num
    · rw [show findLotSize [⟨"LOT_SIZE", "0.00", "0.25"⟩] = ("0.25", "0.00") from rfl]
      rw [show precisionOf "0.25".data = 2 from by decide]
      rw [show ((3 : ℚ)/10 * 10 ^ 2) = ((30 : ℤ) : ℚ) from by norm_num,
        Int.floor_intCast]
      norm_num
  · rw [e25]; norm_num
  · rw [show ((3 : ℚ)/10 / (1/4)) = ((6 : ℚ)/5) from by norm_num]
    rw [show (⌊(6 : ℚ)/5⌋ : ℤ) = 1 from by rw [Int.floor_eq_iff]; norm_num]
    norm_num

/-- C7 amended: for every symbol with a usable `LOT_SIZE` rule and every
quantity accepted by the minimum checks, formatting is floor-to-decimal
precision (never round-to-nearest): with `p` the number of decimal places
of the step-size string after trimming trailing zeros, the returned
quantity is `⌊q·10^p⌋/10^p`, hence at most the input and an integer
multiple of `10^-p`; formatting is idempotent, and an input already on
that grid — in particular any input aligned to a power-of-ten step size —
is returned unchanged.  The result is a multiple of the step size itself
only when the step size is `10^-p`. -/
theorem formatQuantity_floor_spec (rules : ExchangeRules) (sym : String)
    (q r : ℚ) (info : SymbolInfo)
    (hrule : rules sym = some info)
    (hstep : (findLotSize info.filters).1 ≠ "")
    (hok : formatQuantity rules sym q = .ok r) :
    r = (⌊q * 10 ^ precisionOf (findLotSize info.filters).1.data⌋ : ℚ) /
        10 ^ precisionOf (findLotSize info.filters).1.data ∧
    r ≤ q ∧
    (∃ k : ℤ, r = (k : ℚ) / 10 ^ precisionOf (findLotSize info.filters).1.data) ∧
    formatQuantity rules sym r = .ok r ∧
    (∀ k : ℤ, q = (k : ℚ) / 10 ^ precisionOf (findLotSize info.filters).1.data →
      r = q) := by
  have hm : (0 : ℚ) < 10 ^ precisionOf (findLotSize info.filters).1.data := by
    positivity
  have hm0 : (10 : ℚ) ^ precisionOf (findLotSize info.filters).1.data ≠ 0 :=
    ne_of_gt hm
  set p := precisionOf (findLotSize info.filters).1.data with hp
  set m : ℚ := 10 ^ p with hmdef
  set minQty : ℚ := (parseDecimal (findLotSize info.filters).2.data).getD 0 with hmin
  have hunfold : formatQuantity rules sym q =
      if q < minQty then .error "quantity is less than minQty"
      else if (⌊q * m⌋ : ℚ) / m < minQty then
        .error "formatted quantity is less than minQty"
      else .ok ((⌊q * m⌋ : ℚ) / m) := by
    simp only [formatQuantity, hrule, if_neg hstep, hmin, hp, hmdef]
  rw [hunfold] at hok
  by_cases h1 : q < minQty
  · rw [if_pos h1] at hok; exact absurd hok (by simp)
  · rw [if_neg h1] at hok
    by_cases h2 : (⌊q * m⌋ : ℚ) / m < minQty
    · rw [if_pos h2] at hok; exact absurd hok (by simp)
    · rw [if_neg h2] at hok
      have hr : r = (⌊q * m⌋ : ℚ) / m := by
        have := hok
        simp only [Except.ok.injEq] at this
        exact this.symm
      have hle : r ≤ q := by
        rw [hr, div_le_iff₀ hm]
        exact Int.floor_le (q * m)
      have hfloor_r : ⌊r * m⌋ = ⌊q * m⌋ := by
        rw [hr, div_mul_cancel₀ _ hm0, Int.floor_intCast]
      refine ⟨hr, hle, ⟨⌊q * m⌋, hr⟩, ?_, ?_⟩
      · have hunfold' : formatQuantity rules sym r =
            if r < minQty then .error "quantity is less than minQty"
            else if (⌊r * m⌋ : ℚ) / m < minQty then
              .error "formatted quantity is less than minQty"
            else .ok ((⌊r * m⌋ : ℚ) / m) := by
          simp only [formatQuantity, hrule, if_neg hstep, hmin, hp, hmdef]
        rw [hunfold', hfloor_r, ← hr]
        have hrmin : ¬ r < minQty := by rw [hr]; exact h2
        rw [if_neg hrmin, if_neg (hr ▸ h2)]
      · intro k hk
        have : q * m = (k : ℚ) := by
          rw [hk, div_mul_cancel₀ _ hm0]
        rw [hr, this, Int.floor_intCast, ← this]
        rw [mul_div_assoc, div_self hm0, mul_one]

/-- The rule cache used by the C7 witness: step size `0.001000`
(precision 3), minimum `0.001`. -/
def milliStepRules : ExchangeRules := fun s =>
  if s = "BTCUSDT" then some ⟨"BTCUSDT", [⟨"LOT_SIZE", "0.001", "0.001000"⟩]⟩
  else none

/-- Witness for C7 amended: with rule `milliStepRules`, input `1.2345` is
formatted to `1.234`: the floor to the `10^-3` grid, at most the input,
and idempotent. -/
theorem formatQuantity_floor_spec_witness :
    ((1234 : ℚ)/1000) =
      (⌊(12345 : ℚ)/10000 * 10 ^ precisionOf (findLotSize
        [⟨"LOT_SIZE", "0.001", "0.001000"⟩]).1.data⌋ : ℚ) /
        10 ^ precisionOf (findLotSize [⟨"LOT_SIZE", "0.001", "0.001000"⟩]).1.data ∧
    ((1234 : ℚ)/1000) ≤ (12345 : ℚ)/10000 ∧
    formatQuantity milliStepRules "BTCUSDT" ((1234 : ℚ)/1000) =
      .ok ((1234 : ℚ)/1000) := by
  have e1 : parseDecimal "0.001".data =
      some (((0 : Nat) : ℚ) + ((1 : Nat) : ℚ) / 10 ^ 3) := rfl
  have hminq : (parseDecimal (findLotSize
      [(⟨"LOT_SIZE", "0.001", "0.001000"⟩ : Filter)]).2.data).getD 0 = (1 : ℚ)/1000 := by
    rw [show findLotSize [(⟨"LOT_SIZE", "0.001", "0.001000"⟩ : Filter)] =
      ("0.001000", "0.001") from rfl]
    rw [e1]; norm_num
  have hfl : (⌊(12345 : ℚ)/10000 * 10 ^ precisionOf (findLotSize
      [(⟨"LOT_SIZE", "0.001", "0.001000"⟩ : Filter)]).1.data⌋ : ℚ) /
      10 ^ precisionOf (findLotSize
        [(⟨"LOT_SIZE", "0.001", "0.001000"⟩ : Filter)]).1.data = (1234 : ℚ)/1000 := by
    rw [show findLotSize [(⟨"LOT_SIZE", "0.001", "0.001000"⟩ : Filter)] =
      ("0.001000", "0.001") from rfl]
    rw [show precisionOf "0.001000".data = 3 from by decide]
    rw [show ((12345 : ℚ)/10000 * 10 ^ 3) = ((1234 : ℚ) + 1/2) from by norm_num]
    rw [show (⌊(1234 : ℚ) + 1/2⌋ : ℤ) = 1234 from by rw [Int.floor_eq_iff]; norm_num]
    norm_num
  have hok : formatQuantity milliStepRules "BTCUSDT" ((12345 : ℚ)/10000) =
      .ok ((1234 : ℚ)/1000) :=
    formatQuantity_compute milliStepRules "BTCUSDT"
      ⟨"BTCUSDT", [⟨"LOT_SIZE", "0.001", "0.001000"⟩]⟩ rfl (by decide)
      ((1 : ℚ)/1000) hminq ((12345 : ℚ)/10000) ((1234 : ℚ)/1000)
      (by norm_num) hfl (by norm_num)
  have h := formatQuantity_floor_spec milliStepRules "BTCUSDT"
    ((12345 : ℚ)/10000) ((1234 : ℚ)/1000)
    ⟨"BTCUSDT", [⟨"LOT_SIZE", "0.001", "0.001000"⟩]⟩
    rfl (by decide) hok
  exact ⟨by rw [← h.1], h.2.1, h.2.2.2.1⟩

theorem executeJumpTransaction_cases (cfg : TradingCfg) (rules : ExchangeRules)
    (env : ExchangeEnv) (st : BotState) (pair : Pair) :
    (∃ e, (executeJumpTransaction cfg rules env st pair).error = some e ∧
      (executeJumpTransaction cfg rules env st pair).state = st) ∨
    ((executeJumpTransaction cfg rules env st pair).error = none ∧
      (executeJumpTransaction cfg rules env st pair).state =
        { st with
            currentCoin := pair.toCoinSymbol,
            pairs := updateRatiosForNewCoin cfg.bridge pair.toCoinSymbol
              env.prices st.pairs }) := by
  simp only [executeJumpTransaction]
  cases hfq : formatQuantity rules (pair.fromCoinSymbol ++ cfg.bridge) cfg.quantity with
  | error m => exact Or.inl ⟨.sellSizing, rfl, rfl⟩
  | ok sellQty =>
    by_cases hdry : cfg.dryRun
    · simp only [hdry, if_true]
      by_cases htp :
          parseOrZero env.prices (pair.toCoinSymbol ++ cfg.bridge) = 0
      · rw [if_pos htp]
        exact Or.inl ⟨.noToPrice, rfl, rfl⟩
      · simp only [if_neg htp]
        cases hbq : formatQuantity rules (pair.toCoinSymbol ++ cfg.bridge)
            (sellQty * parseOrZero env.prices (pair.fromCoinSymbol ++ cfg.bridge) *
              (1 - cfg.feeRate) / parseOrZero env.prices (pair.toCoinSymbol ++ cfg.bridge)) with
        | error m => exact Or.inl ⟨.buySizing, rfl, rfl⟩
        | ok buyQty => exact Or.inr ⟨rfl, rfl⟩
    · simp only [hdry, if_false, Bool.false_eq_true]
      cases hso : env.sellOrder with
      | none => exact Or.inl ⟨.sellOrderFailed, rfl, rfl⟩
      | some o =>
        dsimp only
        by_cases htp :
            parseOrZero env.prices (pair.toCoinSymbol ++ cfg.bridge) = 0
        · rw [if_pos htp]
          exact Or.inl ⟨.noToPrice, rfl, rfl⟩
        · simp only [if_neg htp]
          cases hbq : formatQuantity rules (pair.toCoinSymbol ++ cfg.bridge)
              (o.cummulativeQuoteQty /
                parseOrZero env.prices (pair.toCoinSymbol ++ cfg.bridge)) with
          | error m => exact Or.inl ⟨.buySizing, rfl, rfl⟩
          | ok buyQty =>
            cases hbo : env.buyOrder with
            | none => exact Or.inl ⟨.buyOrderFailed, rfl, rfl⟩
            | some o2 => exact Or.inr ⟨rfl, rfl⟩

theorem ExecuteJump_cases (cfg : TradingCfg) (rules : ExchangeRules)
    (env : ExchangeEnv) (st : BotState) (pair : Pair) (q p : ℚ) :
    (∃ e, (ExecuteJump cfg rules env st pair q p).error = some e) ∨
    ((ExecuteJump cfg rules env st pair q p).error = none ∧
      ∃ t1 t2 : Trade,
        (ExecuteJump cfg rules env st pair q p).state.trades = st.trades ++ [t1, t2] ∧
        t1.side = "SELL" ∧ t1.profit = 0 ∧ t2.side = "BUY" ∧ t2.profit = p ∧
        (ExecuteJump cfg rules env st pair q p).state.currentCoin = st.currentCoin ∧
        (ExecuteJump cfg rules env st pair q p).state.pairs = st.pairs) := by
  simp only [ExecuteJump]
  cases hfq : formatQuantity rules (pair.fromCoinSymbol ++ cfg.bridge) q with
  | error m => exact Or.inl ⟨.sellSizing, rfl⟩
  | ok sellQty =>
    cases hso : env.sellOrder with
    | none => exact Or.inl ⟨.sellOrderFailed, rfl⟩
    | some o =>
      dsimp only
      by_cases htp :
          parseOrZero env.prices (pair.toCoinSymbol ++ cfg.bridge) = 0
      · rw [if_pos htp]
        exact Or.inl ⟨.noToPrice, rfl⟩
      · simp only [if_neg htp]
        cases hbq : formatQuantity rules (pair.toCoinSymbol ++ cfg.bridge)
            (sellQty * parseOrZero env.prices (pair.fromCoinSymbol ++ cfg.bridge) *
              (1 - cfg.feeRate) /
              parseOrZero env.prices (pair.toCoinSymbol ++ cfg.bridge)) with
        | error m => exact Or.inl ⟨.buySizing, rfl⟩
        | ok buyQty =>
          cases hbo : env.buyOrder with
          | none => exact Or.inl ⟨.buyOrderFailed, rfl⟩
          | some o2 =>
            refine Or.inr ⟨rfl,
              ⟨pair.fromCoinSymbol ++ cfg.bridge, "SELL",
                parseOrZero env.prices (pair.fromCoinSymbol ++ cfg.bridge), sellQty,
                sellQty * parseOrZero env.prices (pair.fromCoinSymbol ++ cfg.bridge),
                o.transactTime, 0⟩,
              ⟨pair.toCoinSymbol ++ cfg.bridge, "BUY",
                parseOrZero env.prices (pair.toCoinSymbol ++ cfg.bridge), buyQty,
                buyQty * parseOrZero env.prices (pair.toCoinSymbol ++ cfg.bridge),
                o2.transactTime, p⟩,
              ?_, rfl, rfl, rfl, rfl, rfl, rfl⟩
            simp [List.append_assoc]

/-- C3: whenever jump execution fails at any step — sell sizing, sell
order, missing/zero target price, buy sizing or buy order — the persisted
state, and in particular the `CurrentCoin` record, is left unchanged; it
moves to the target asset only on the all-success path. -/
theorem jump_failure_preserves_holding (cfg : TradingCfg) (rules : ExchangeRules)
    (env : ExchangeEnv) (st : BotState) (pair : Pair) (e : JumpError)
    (h : (executeJumpTransaction cfg rules env st pair).error = some e) :
    (executeJumpTransaction cfg rules env st pair).state.currentCoin =
      st.currentCoin ∧
    (executeJumpTransaction cfg rules env st pair).state = st := by
  rcases executeJumpTransaction_cases cfg rules env st pair with
    ⟨e2, _, hs⟩ | ⟨hnone, _⟩
  · exact ⟨by rw [hs], hs⟩
  · rw [h] at hnone
    exact absurd hnone (by simp)

/-- The exchange environment used by the executor witnesses: snapshot
prices for BTCUSDT and ETHUSDT, both order calls succeeding. -/
def sampleEnv : ExchangeEnv :=
  ⟨fun s => if s = "BTCUSDT" then some (some 30000)
    else if s = "ETHUSDT" then some (some 1800) else none,
   some ⟨1, 100, 30000⟩, some ⟨2, 200, 0⟩⟩

/-- The exchange environment with the sell order failing. -/
def sellFailEnv : ExchangeEnv :=
  ⟨fun s => if s = "BTCUSDT" then some (some 30000)
    else if s = "ETHUSDT" then some (some 1800) else none,
   none, none⟩

/-- The persisted state used by the executor witnesses. -/
def sampleState : BotState := ⟨"BTC", [⟨"ETH", "BTC", 2/3⟩], []⟩

/-- Witness for C3, at a failing sell order. -/
theorem jump_failure_preserves_holding_witness :
    (executeJumpTransaction ⟨"USDT", 0, 0, 1, false⟩ (fun _ => none) sellFailEnv
      sampleState ⟨"BTC", "ETH", 15⟩).state.currentCoin = "BTC" ∧
    (executeJumpTransaction ⟨"USDT", 0, 0, 1, false⟩ (fun _ => none) sellFailEnv
      sampleState ⟨"BTC", "ETH", 15⟩).state = sampleState :=
  jump_failure_preserves_holding ⟨"USDT", 0, 0, 1, false⟩ (fun _ => none)
    sellFailEnv sampleState ⟨"BTC", "ETH", 15⟩ .sellOrderFailed rfl

/-- C8: when the sell-leg quantity is rejected by the `LOT_SIZE` sizing
check, the jump aborts immediately with a sizing error: no order request
is issued to the exchange and the persisted state (current coin, pair
ratios, trades) is untouched. -/
theorem jump_sizing_no_side_effect (cfg : TradingCfg) (rules : ExchangeRules)
    (env : ExchangeEnv) (st : BotState) (pair : Pair) (msg : String)
    (h : formatQuantity rules (pair.fromCoinSymbol ++ cfg.bridge) cfg.quantity =
      .error msg) :
    executeJumpTransaction cfg rules env st pair =
      ⟨st, some .sellSizing, []⟩ := by
  simp only [executeJumpTransaction, h]

/-- The below-minimum abort of `formatQuantity`, with the numeric side
conditions supplied as hypotheses. -/
theorem formatQuantity_below_min (rules : ExchangeRules) (sym : String)
    (info : SymbolInfo) (hrule : rules sym = some info)
    (hstep : (findLotSize info.filters).1 ≠ "")
    (minq : ℚ) (hminq : (parseDecimal (findLotSize info.filters).2.data).getD 0 = minq)
    (q : ℚ) (h1 : q < minq) :
    formatQuantity rules sym q = .error "quantity is less than minQty" := by
  simp only [formatQuantity, hrule, if_neg hstep, hminq, if_pos h1]

theorem milliStep_minq :
    (parseDecimal (findLotSize
      [(⟨"LOT_SIZE", "0.001", "0.001000"⟩ : Filter)]).2.data).getD 0 = (1 : ℚ)/1000 := by
  rw [show findLotSize [(⟨"LOT_SIZE", "0.001", "0.001000"⟩ : Filter)] =
    ("0.001000", "0.001") from rfl]
  rw [show parseDecimal "0.001".data =
    some (((0 : Nat) : ℚ) + ((1 : Nat) : ℚ) / 10 ^ 3) from rfl]
  norm_num

/-- Witness for C8: quantity `0.0005` under minimum `0.001`. -/
theorem jump_sizing_no_side_effect_witness :
    executeJumpTransaction ⟨"USDT", 0, 0, 1/2000, false⟩ milliStepRules sampleEnv
      sampleState ⟨"BTC", "ETH", 15⟩ = ⟨sampleState, some .sellSizing, []⟩ :=
  jump_sizing_no_side_effect ⟨"USDT", 0, 0, 1/2000, false⟩ milliStepRules sampleEnv
    sampleState ⟨"BTC", "ETH", 15⟩ "quantity is less than minQty"
    (formatQuantity_below_min milliStepRules "BTCUSDT"
      ⟨"BTCUSDT", [⟨"LOT_SIZE", "0.001", "0.001000"⟩]⟩ rfl (by decide)
      ((1 : ℚ)/1000) milliStep_minq (1/2000) (by norm_num))

theorem getD_map_of_lt (f : Pair → Pair) (l : List Pair) (i : Nat) (d : Pair)
    (h : i < l.length) : (l.map f).getD i d = f (l.getD i d) := by
  rw [List.getD_eq_getElem?_getD, List.getD_eq_getElem?_getD, List.getElem?_map,
    List.getElem?_eq_getElem h]
  simp

/-- C4 counterexample: a fully successful jump through the engine's
executor (`executeJumpTransaction`) persists no `Trade` record at all —
the trade table is exactly as before — while the helper `ExecuteJump`,
which does persist the two legs, leaves `CurrentCoin` (still BTC, not ETH)
and the pair ratios untouched.  No execution path performs all three
updates of the claim. -/
theorem jump_success_effects_counterexample :
    (executeJumpTransaction ⟨"USDT", 0, 0, 1, false⟩ (fun _ => none) sampleEnv
      sampleState ⟨"BTC", "ETH", 15⟩).error = none ∧
    (executeJumpTransaction ⟨"USDT", 0, 0, 1, false⟩ (fun _ => none) sampleEnv
      sampleState ⟨"BTC", "ETH", 15⟩).state.trades = [] ∧
    (ExecuteJump ⟨"USDT", 0, 0, 1, false⟩ (fun _ => none) sampleEnv
      sampleState ⟨"BTC", "ETH", 15⟩ 1 (1/10)).error = none ∧
    (ExecuteJump ⟨"USDT", 0, 0, 1, false⟩ (fun _ => none) sampleEnv
      sampleState ⟨"BTC", "ETH", 15⟩ 1 (1/10)).state.currentCoin = "BTC" ∧
    "BTC" ≠ "ETH" ∧
    (ExecuteJump ⟨"USDT", 0, 0, 1, false⟩ (fun _ => none) sampleEnv
      sampleState ⟨"BTC", "ETH", 15⟩ 1 (1/10)).state.pairs = sampleState.pairs := by
  refine ⟨rfl, rfl, rfl, rfl, by decide, rfl⟩

/-- C4 amended: the post-success effects are split between the two
executors.  On a fully successful jump the engine's
`executeJumpTransaction` updates `CurrentCoin` to the target asset and
re-benchmarks every pair whose `FromCoin` is the target and whose two leg
prices are present and positive in the fresh snapshot to
`fromPrice/toPrice` (pairs not leaving the target, and pairs with missing
or non-positive prices, keep their ratio) — but persists no `Trade`
record.  The helper `ExecuteJump` persists exactly one `Trade` per leg —
the sell leg with no profit attributed, the buy leg carrying the computed
profit — but leaves `CurrentCoin` and the pair ratios unchanged. -/
theorem jump_success_effects (cfg : TradingCfg) (rules : ExchangeRules)
    (env : ExchangeEnv) (st : BotState) (pair : Pair)
    (hsucc : (executeJumpTransaction cfg rules env st pair).error = none)
    (cfg2 : TradingCfg) (rules2 : ExchangeRules) (env2 : ExchangeEnv)
    (st2 : BotState) (pair2 : Pair) (q p : ℚ)
    (hsucc2 : (ExecuteJump cfg2 rules2 env2 st2 pair2 q p).error = none) :
    ((executeJumpTransaction cfg rules env st pair).state.currentCoin =
        pair.toCoinSymbol ∧
      (executeJumpTransaction cfg rules env st pair).state.trades = st.trades ∧
      (executeJumpTransaction cfg rules env st pair).state.pairs.length =
        st.pairs.length ∧
      (∀ i, i < st.pairs.length →
        ((st.pairs.getD i ⟨"", "", 0⟩).fromCoinSymbol ≠ pair.toCoinSymbol →
          (executeJumpTransaction cfg rules env st pair).state.pairs.getD i ⟨"", "", 0⟩ =
            st.pairs.getD i ⟨"", "", 0⟩) ∧
        (∀ fp tp,
          (st.pairs.getD i ⟨"", "", 0⟩).fromCoinSymbol = pair.toCoinSymbol →
          env.prices ((st.pairs.getD i ⟨"", "", 0⟩).fromCoinSymbol ++ cfg.bridge) =
            some (some fp) →
          env.prices ((st.pairs.getD i ⟨"", "", 0⟩).toCoinSymbol ++ cfg.bridge) =
            some (some tp) →
          0 < fp → 0 < tp →
          (executeJumpTransaction cfg rules env st pair).state.pairs.getD i ⟨"", "", 0⟩ =
            { st.pairs.getD i ⟨"", "", 0⟩ with ratio := fp / tp }))) ∧
    (∃ t1 t2 : Trade,
      (ExecuteJump cfg2 rules2 env2 st2 pair2 q p).state.trades =
        st2.trades ++ [t1, t2] ∧
      t1.side = "SELL" ∧ t1.profit = 0 ∧ t2.side = "BUY" ∧ t2.profit = p ∧
      (ExecuteJump cfg2 rules2 env2 st2 pair2 q p).state.currentCoin =
        st2.currentCoin ∧
      (ExecuteJump cfg2 rules2 env2 st2 pair2 q p).state.pairs = st2.pairs) := by
  constructor
  · rcases executeJumpTransaction_cases cfg rules env st pair with
      ⟨e, he, _⟩ | ⟨_, hs⟩
    · rw [hsucc] at he
      exact absurd he (by simp)
    · rw [hs]
      refine ⟨rfl, rfl, ?_, ?_⟩
      · simp [updateRatiosForNewCoin]
      · intro i hi
        constructor
        · intro hne
          show (updateRatiosForNewCoin cfg.bridge pair.toCoinSymbol env.prices
            st.pairs).getD i ⟨"", "", 0⟩ = _
          rw [updateRatiosForNewCoin, getD_map_of_lt _ _ _ _ hi, if_neg hne]
        · intro fp tp heq hfp htp hfp0 htp0
          show (updateRatiosForNewCoin cfg.bridge pair.toCoinSymbol env.prices
            st.pairs).getD i ⟨"", "", 0⟩ = _
          rw [updateRatiosForNewCoin, getD_map_of_lt _ _ _ _ hi, if_pos heq,
            hfp, htp]
          simp only [Option.getD_some]
          rw [if_pos ⟨hfp0, htp0⟩]
  · rcases ExecuteJump_cases cfg2 rules2 env2 st2 pair2 q p with
      ⟨e, he⟩ | ⟨_, hrest⟩
    · rw [hsucc2] at he
      exact absurd he (by simp)
    · exact hrest

/-- Witness for C4 amended, at a concrete fully successful jump through
both executors. -/
theorem jump_success_effects_witness :
    (executeJumpTransaction ⟨"USDT", 0, 0, 1, false⟩ (fun _ => none) sampleEnv
      sampleState ⟨"BTC", "ETH", 15⟩).state.currentCoin = "ETH" ∧
    (executeJumpTransaction ⟨"USDT", 0, 0, 1, false⟩ (fun _ => none) sampleEnv
      sampleState ⟨"BTC", "ETH", 15⟩).state.trades = [] ∧
    (ExecuteJump ⟨"USDT", 0, 0, 1, false⟩ (fun _ => none) sampleEnv
      sampleState ⟨"BTC", "ETH", 15⟩ 1 (1/10)).state.currentCoin = "BTC" ∧
    (ExecuteJump ⟨"USDT", 0, 0, 1, false⟩ (fun _ => none) sampleEnv
      sampleState ⟨"BTC", "ETH", 15⟩ 1 (1/10)).state.pairs = sampleState.pairs := by
  have h := jump_success_effects ⟨"USDT", 0, 0, 1, false⟩ (fun _ => none) sampleEnv
    sampleState ⟨"BTC", "ETH", 15⟩ rfl
    ⟨"USDT", 0, 0, 1, false⟩ (fun _ => none) sampleEnv
    sampleState ⟨"BTC", "ETH", 15⟩ 1 (1/10) rfl
  obtain ⟨⟨hcc, htr, _, _⟩, ⟨t1, t2, _, _, _, _, _, hcc2, hpairs2⟩⟩ := h
  exact ⟨hcc, htr, hcc2, hpairs2⟩

/-- C2: per tick, for any arrival order `l` of the concurrently evaluated
opportunities (any permutation of the qualifying list), the scout's drain
loop returns `none` exactly when no pair has positive profit, and whenever
it returns an opportunity, that opportunity is one of the qualifying ones
and its profit is maximal among them (the arg-max over pairs with profit
`> 0`); with no positive-profit pair the tick executes no jump and ends
without error. -/
theorem scout_selects_argmax (cfg : TradingCfg) (rules : ExchangeRules)
    (env : ExchangeEnv) (st : BotState) (prices : PriceMap)
    (dbPairs : List Pair) (l : List TradeOpportunity)
    (hperm : l.Perm (engineCollect cfg
      (st.pairs.filter fun p => p.fromCoinSymbol = st.currentCoin) prices)) :
    (selectBest l = none ↔
      engineCollect cfg (st.pairs.filter fun p => p.fromCoinSymbol = st.currentCoin)
        prices = []) ∧
    (∀ b, selectBest l = some b →
      b ∈ engineCollect cfg (st.pairs.filter fun p => p.fromCoinSymbol = st.currentCoin)
        prices ∧
      ∀ o ∈ engineCollect cfg (st.pairs.filter fun p => p.fromCoinSymbol = st.currentCoin)
        prices, o.profit ≤ b.profit) ∧
    (engineCollect cfg (st.pairs.filter fun p => p.fromCoinSymbol = st.currentCoin)
        prices = [] →
      scoutTick cfg rules env st prices = (st, none, false)) ∧
    (∀ b, findBestJump cfg dbPairs prices = some b →
      b ∈ collectOpportunities cfg dbPairs prices ∧
      ∀ o ∈ collectOpportunities cfg dbPairs prices, o.profit ≤ b.profit) := by
  refine ⟨?_, ?_, ?_, fun b hb => selectBest_spec _ b hb⟩
  · constructor
    · intro h
      have hl : l = [] := (selectBest_eq_none_iff l).mp h
      exact List.Perm.eq_nil (hl ▸ hperm).symm
    · intro h
      have hl : l = [] := List.Perm.eq_nil (h ▸ hperm)
      exact (selectBest_eq_none_iff l).mpr hl
  · intro b hb
    obtain ⟨hmem, hle⟩ := selectBest_spec l b hb
    refine ⟨hperm.mem_iff.mp hmem, ?_⟩
    intro o ho
    exact hle o (hperm.mem_iff.mpr ho)
  · intro hc
    simp [scoutTick, hc, selectBest_nil]

/-- Witness for C2, at a state whose only pair does not leave the held
coin: no opportunity qualifies; the selection is `none` and the tick ends
with no jump and no error. -/
theorem scout_selects_argmax_witness :
    (selectBest (engineCollect ⟨"USDT", 0, 0, 1, false⟩
      (sampleState.pairs.filter fun p => p.fromCoinSymbol = sampleState.currentCoin)
      sampleEnv.prices) = none) ∧
    scoutTick ⟨"USDT", 0, 0, 1, false⟩ (fun _ => none) sampleEnv sampleState
      sampleEnv.prices = (sampleState, none, false) := by
  have h := scout_selects_argmax ⟨"USDT", 0, 0, 1, false⟩ (fun _ => none) sampleEnv
    sampleState sampleEnv.prices sampleState.pairs
    (engineCollect ⟨"USDT", 0, 0, 1, false⟩
      (sampleState.pairs.filter fun p => p.fromCoinSymbol = sampleState.currentCoin)
      sampleEnv.prices)
    (List.Perm.refl _)
  exact ⟨h.1.mpr rfl, h.2.2.1 rfl⟩

end BinanceBot
